import Mathlib

/-!
Verification of the `tree-rs` interactive directory-tree filter.

The Rust sources under `src/` are shallowly embedded below:

* `src/input.rs`   — the raw-byte input decoder and event application
  (`get_input_chars`, `handle_control_keys`, `handle_nav_key`,
  `handle_input`);
* `src/mark.rs`    — the visibility-propagation matcher
  (`mark_matched_nodes`);
* `src/render.rs`  — flattening, width clipping and scroll handling
  (`flatten_tree`, `fixed_length_string`, `render_tree`, `render`);
* `src/generate.rs` — the directory-tree builder (`build_directory_tree`).

The crate-root items `DirectoryNode`, `Line`, `Style`, `Event`,
`Direction`, `Navigation` and `Line::to_string` are not among the given
sources; their shapes are reconstructed from their uses in the modules
above and, where marked, modelled from the specification.

Conventions of the embedding:
* the blocking byte stream is a `List (Option Nat)`: `some b` is a
  successful one-byte read, `none` a failed read (`read_exact` error);
* Rust `String`s manipulated character-wise (the edit pattern) are
  `List Char`; strings sliced byte-wise (`fixed_length_string`) are
  `List Nat` of UTF-8 bytes so that byte/boundary behaviour is visible;
* a Rust panic (`expect`, out-of-boundary slice, usize underflow) is
  `none` in an `Option` result;
* a compiled regex is abstracted to its match predicate `String → Bool`.
-/

/-- Modelled from the spec: the decoder's cursor directions
(`Direction(Left|Right)`), declared at the crate root which is absent
from `src/`. -/
inductive Direction where
  | left
  | right
deriving DecidableEq, Repr

/-- Modelled from the spec: the decoder's navigation keys
(`Navigation(PageUp|PageDown|Home|End)`), declared at the crate root
which is absent from `src/`. -/
inductive Navigation where
  | pageUp
  | pageDown
  | home
  | «end»
deriving DecidableEq, Repr

/-- Modelled from the spec: the event set of the input decoder
(`Key(char)`, `Direction`, `Navigation`, `Backspace`, `Clear`, `Enter`,
`Exit`), declared at the crate root which is absent from `src/`. -/
inductive Event where
  | key (c : Char)
  | direction (d : Direction)
  | navigation (n : Navigation)
  | backspace
  | clear
  | enter
  | exit
deriving DecidableEq, Repr

/-- The blocking byte stream: each element is one `read_exact` outcome. -/
abbrev ByteStream := List (Option Nat)

/-- One `read_exact(&mut [0; 1])` call: reading past the end of the
stream is also a failed read. -/
def readByte : ByteStream → Option Nat × ByteStream
  | [] => (none, [])
  | r :: rest => (r, rest)

/-- `handle_nav_key` from `src/input.rs`: after a CSI selector in
`{0x35,0x36,0x31,0x34}`, read one more byte; `0x7e` confirms the
navigation event, any other byte degrades to `Key(that byte)`, and a
read failure degrades to `Key(char_value)` (the selector byte). -/
def handle_nav_key (char_value : Char) (event : Navigation) (s : ByteStream) :
    Event × ByteStream :=
  match readByte s with
  | (some b, rest) =>
    if b = 0x7e then (Event.navigation event, rest)
    else (Event.key (Char.ofNat b), rest)
  | (none, rest) => (Event.key char_value, rest)

/-- `handle_control_keys` from `src/input.rs`: called with the ESC
character; reads the CSI introducer and the selector byte. Read failure
at either of these two reads degrades to `Key(char_value)` where
`char_value` is still the ESC character parameter. -/
def handle_control_keys (char_value : Char) (s : ByteStream) :
    Event × ByteStream :=
  match readByte s with
  | (none, rest) => (Event.key char_value, rest)
  | (some b1, rest) =>
    if b1 = 0x5b then
      match readByte rest with
      | (none, rest2) => (Event.key char_value, rest2)
      | (some b2, rest2) =>
        if b2 = 0x43 then (Event.direction Direction.right, rest2)
        else if b2 = 0x44 then (Event.direction Direction.left, rest2)
        else if b2 = 0x35 then handle_nav_key (Char.ofNat b2) Navigation.pageUp rest2
        else if b2 = 0x36 then handle_nav_key (Char.ofNat b2) Navigation.pageDown rest2
        else if b2 = 0x31 then handle_nav_key (Char.ofNat b2) Navigation.home rest2
        else if b2 = 0x34 then handle_nav_key (Char.ofNat b2) Navigation.«end» rest2
        else (Event.key (Char.ofNat b2), rest2)
    else (Event.key (Char.ofNat b1), rest)

/-- `get_input_chars` from `src/input.rs`: the entry point of the
decoder state machine. A failed first read yields `Exit`. -/
def get_input_chars (s : ByteStream) : Event × ByteStream :=
  match readByte s with
  | (none, rest) => (Event.exit, rest)
  | (some b, rest) =>
    if b = 0x08 ∨ b = 0x7f then (Event.backspace, rest)
    else if b = 0x15 then (Event.clear, rest)
    else if b = 0x04 then (Event.exit, rest)
    else if b = 0x0d then (Event.enter, rest)
    else if b = 0x1b then handle_control_keys (Char.ofNat b) rest
    else (Event.key (Char.ofNat b), rest)

/-- The controller's edit state: pattern buffer, cursor, scroll
(`pattern: &mut String`, `cursor_pos: &mut usize`, `scroll: &mut usize`
in `handle_input`). The pattern is kept as a character list. -/
structure EditState where
  pattern : List Char
  cursorPos : Nat
  scroll : Nat
deriving DecidableEq, Repr

/-- The event-application `match` block of `handle_input` from
`src/input.rs`: mutates the edit state and returns `Some` only for
`Enter` (the pattern) and `Exit` (the empty string). -/
def applyEvent (e : Event) (st : EditState) : EditState × Option (List Char) :=
  match e with
  | Event.key c =>
    let pattern :=
      if st.cursorPos < st.pattern.length then
        st.pattern.take st.cursorPos ++ c :: st.pattern.drop st.cursorPos
      else
        st.pattern ++ [c]
    ({ st with pattern := pattern, cursorPos := st.cursorPos + 1 }, none)
  | Event.direction d =>
    match d with
    | Direction.left => ({ st with cursorPos := st.cursorPos - 1 }, none)
    | Direction.right =>
      let c := st.cursorPos + 1
      ({ st with cursorPos := if c > st.pattern.length then st.pattern.length else c },
        none)
  | Event.navigation n =>
    match n with
    | Navigation.pageUp => ({ st with scroll := st.scroll - 5 }, none)
    | Navigation.pageDown => ({ st with scroll := st.scroll + 5 }, none)
    | Navigation.home => ({ st with cursorPos := 0 }, none)
    | Navigation.«end» => ({ st with cursorPos := st.pattern.length }, none)
  | Event.backspace =>
    let one_before := st.cursorPos - 1
    let pattern :=
      if one_before < st.pattern.length then st.pattern.eraseIdx one_before
      else st.pattern
    ({ st with pattern := pattern, cursorPos := st.cursorPos - 1 }, none)
  | Event.clear => ({ st with pattern := [], cursorPos := 0 }, none)
  | Event.enter => (st, some st.pattern)
  | Event.exit => (st, some [])

/-- `handle_input` from `src/input.rs`: decode one event from the byte
stream, then apply it to the edit state. -/
def handle_input (s : ByteStream) (st : EditState) :
    (EditState × Option (List Char)) × ByteStream :=
  let (e, rest) := get_input_chars s
  (applyEvent e st, rest)

/-- C5: the three pinned byte sequences decode to exactly the pinned
events, consuming exactly the pinned number of bytes: `[1B 5B 43]` gives
`Direction(Right)` in 3 bytes, `[1B 5B 35 7E]` gives
`Navigation(PageUp)` in 4 bytes, and `[1B 5B 39]` gives `Key('9')` in
3 bytes, whatever follows on the stream. -/
theorem decoder_pinned_sequences (s : ByteStream) :
    get_input_chars (some 0x1b :: some 0x5b :: some 0x43 :: s)
      = (Event.direction Direction.right, s)
    ∧ get_input_chars (some 0x1b :: some 0x5b :: some 0x35 :: some 0x7e :: s)
      = (Event.navigation Navigation.pageUp, s)
    ∧ get_input_chars (some 0x1b :: some 0x5b :: some 0x39 :: s)
      = (Event.key '9', s) := by
  refine ⟨?_, ?_, ?_⟩ <;>
    simp [get_input_chars, handle_control_keys, handle_nav_key, readByte]

/-- C3 counterexample: a read failure at the very next step after ESC
does NOT yield `Exit`; the decoder degrades to `Key('\x1b')`. This
refutes the claim that a read failure at any step of the state machine
yields the Exit event. -/
theorem read_failure_after_esc_is_not_exit :
    (get_input_chars [some 0x1b, none]).1 = Event.key (Char.ofNat 0x1b)
    ∧ (get_input_chars [some 0x1b, none]).1 ≠ Event.exit := by
  constructor
  · simp [get_input_chars, handle_control_keys, readByte]
  · simp [get_input_chars, handle_control_keys, readByte]

/-- C3 (amended): a read failure at the FIRST byte yields `Exit`
(reading past the end of the stream included); a read failure at any
later step of the state machine degrades to a stray `Key` event — the
ESC character when the failure is at the CSI introducer or selector
read, the selector character when it is at the tilde confirmation read
— and the decoder is a total function, so no malformed or truncated
sequence crashes it. -/
theorem decoder_failure_behaviour (s : ByteStream) :
    get_input_chars (none :: s) = (Event.exit, s)
    ∧ get_input_chars [] = (Event.exit, [])
    ∧ get_input_chars (some 0x1b :: none :: s)
      = (Event.key (Char.ofNat 0x1b), s)
    ∧ get_input_chars (some 0x1b :: some 0x5b :: none :: s)
      = (Event.key (Char.ofNat 0x1b), s)
    ∧ get_input_chars (some 0x1b :: some 0x5b :: some 0x35 :: none :: s)
      = (Event.key (Char.ofNat 0x35), s)
    ∧ get_input_chars (some 0x1b :: some 0x5b :: some 0x36 :: none :: s)
      = (Event.key (Char.ofNat 0x36), s)
    ∧ get_input_chars (some 0x1b :: some 0x5b :: some 0x31 :: none :: s)
      = (Event.key (Char.ofNat 0x31), s)
    ∧ get_input_chars (some 0x1b :: some 0x5b :: some 0x34 :: none :: s)
      = (Event.key (Char.ofNat 0x34), s) := by
  refine ⟨?_, ?_, ?_, ?_, ?_, ?_, ?_, ?_⟩ <;>
    simp [get_input_chars, handle_control_keys, handle_nav_key, readByte]

/-- C4 (code bug): with the pattern `"abc"` and the cursor at position
0, a Backspace (byte `0x7f`) is NOT a no-op: `one_before` saturates to
0, the guard `one_before < pattern.len()` passes, and the FIRST
character of the pattern is removed, leaving `"bc"`. The spec says
Backspace at cursor 0 is a no-op on the pattern. -/
theorem backspace_at_cursor_zero_removes_first_char :
    handle_input [some 0x7f] ⟨['a', 'b', 'c'], 0, 0⟩
      = ((⟨['b', 'c'], 0, 0⟩, none), []) := by
  rfl

/-- Modelled from the spec: the in-memory tree node (`DirectoryNode` at
the crate root, absent from `src/`), with the fields used by
`src/mark.rs`, `src/render.rs` and `src/generate.rs`: the path (as its
list of components, `file_name` being the last one), the ordered
children, the `matched` visibility flag, the color tag and the optional
error message. -/
inductive DirectoryNode where
  | mk (path : List String) (children : List DirectoryNode)
      (matched : Bool) (color : String) (error : Option String)

/-- The `path` field. -/
def DirectoryNode.path : DirectoryNode → List String
  | .mk p _ _ _ _ => p

/-- The `children` field. -/
def DirectoryNode.children : DirectoryNode → List DirectoryNode
  | .mk _ cs _ _ _ => cs

/-- The `matched` field (the spec's `visible`). -/
def DirectoryNode.matched : DirectoryNode → Bool
  | .mk _ _ m _ _ => m

/-- The `color` field. -/
def DirectoryNode.color : DirectoryNode → String
  | .mk _ _ _ c _ => c

/-- The `error` field. -/
def DirectoryNode.error : DirectoryNode → Option String
  | .mk _ _ _ _ e => e

/-- `node.path.file_name()`: the final path component, if any. -/
def DirectoryNode.fileName (n : DirectoryNode) : Option String :=
  n.path.getLast?

/-- `node.path.file_name().is_some_and(|f| re.is_match(f))` from
`src/mark.rs`: whether the node's OWN name (final component only)
matches the pattern. -/
def selfNameMatches (re : String → Bool) (n : DirectoryNode) : Bool :=
  match n.fileName with
  | some f => re f
  | none => false

mutual

/-- `mark_matched_nodes` from `src/mark.rs`: post-order marking. The
node's new flag is `own name matches | fold of recursively marking
every child` (Rust `|` on `bool`: both sides always evaluated, no
short-circuiting over the child list). Returns the updated node and the
flag value, as the Rust function sets `node.matched` and returns it. -/
def mark_matched_nodes (re : String → Bool) : DirectoryNode → DirectoryNode × Bool
  | .mk p cs _ color err =>
    let children := markChildren re cs
    let m := selfNameMatches re (.mk p cs false color err) || children.2
    (.mk p children.1 m color err, m)

/-- The `iter_mut().fold(false, |acc, child| acc | mark(child))` over
the child list: marks every child and ors the returned flags. -/
def markChildren (re : String → Bool) : List DirectoryNode → List DirectoryNode × Bool
  | [] => ([], false)
  | c :: rest =>
    let c' := mark_matched_nodes re c
    let rest' := markChildren re rest
    (c'.1 :: rest'.1, c'.2 || rest'.2)

end

mutual

/-- Does some node of the subtree (the root included) satisfy `p`? Used
to state "some descendant at any depth matches". -/
def anyNode (p : DirectoryNode → Bool) : DirectoryNode → Bool
  | .mk path cs m color err =>
    p (.mk path cs m color err) || anyNodeList p cs

/-- `anyNode` over a list of subtrees. -/
def anyNodeList (p : DirectoryNode → Bool) : List DirectoryNode → Bool
  | [] => false
  | c :: rest => anyNode p c || anyNodeList p rest

end

mutual

/-- Does every node of the subtree (the root included) satisfy `p`? -/
def allNodes (p : DirectoryNode → Bool) : DirectoryNode → Bool
  | .mk path cs m color err =>
    p (.mk path cs m color err) && allNodesList p cs

/-- `allNodes` over a list of subtrees. -/
def allNodesList (p : DirectoryNode → Bool) : List DirectoryNode → Bool
  | [] => true
  | c :: rest => allNodes p c && allNodesList p rest

end

/-- Modelled from the spec: the full/compact glyph style, declared at
the crate root which is absent from `src/`. -/
inductive Style where
  | compact
  | full
deriving DecidableEq, Repr

/-- Modelled from the spec: one ephemeral rendered line — tree-drawing
glyph part, name-and-error part, color tag — with the field names used
by `flatten_tree` in `src/render.rs`. -/
structure Line where
  first_part : String
  last_part : String
  color : String
deriving DecidableEq, Repr

/-- The connector-glyph `match (style, is_last)` of `flatten_tree` in
`src/render.rs`. -/
def connector : Style → Bool → String
  | Style.compact, true => "└"
  | Style.compact, false => "├"
  | Style.full, true => "└─"
  | Style.full, false => "├─"

/-- The `index_of_last_match` computation of `flatten_tree`:
`children.iter().enumerate().filter_map(matched.then_some(i)).last()
.unwrap_or(0)`. -/
def indexOfLastMatch (cs : List DirectoryNode) : Nat :=
  ((cs.enum.filterMap fun p => if p.2.matched then some p.1 else none).getLast?).getD 0

mutual

/-- `flatten_tree` from `src/render.rs`: returns `[]` whenever the
node's `matched` flag is false (pruning); otherwise emits the node's
own line and recurses into all children, handing the child at index `i`
`is_last = (i == index_of_last_match)`. -/
def flatten_tree : DirectoryNode → String → Bool → Style → List Line
  | .mk p cs m color err, pre, is_last, style =>
    if m = false then []
    else
      let file_name := (p.getLast?).getD "."
      let errText :=
        match err with
        | some e => " " ++ e
        | none => ""
      let line : Line :=
        { first_part := pre ++ connector style is_last
          last_part := file_name ++ errText
          color := color }
      let childPre :=
        if is_last then
          match style with
          | Style.compact => pre ++ " "
          | Style.full => pre ++ "  "
        else
          match style with
          | Style.compact => pre ++ "│"
          | Style.full => pre ++ "│ "
      line :: flattenChildren cs 0 (indexOfLastMatch cs) childPre style

/-- The `for (i, child) in node.children.iter().enumerate()` loop of
`flatten_tree`, extending the line list with each child's flattening. -/
def flattenChildren : List DirectoryNode → Nat → Nat → String → Style → List Line
  | [], _, _, _, _ => []
  | c :: rest, i, idx, childPre, style =>
    flatten_tree c childPre (i = idx) style
      ++ flattenChildren rest (i + 1) idx childPre style

end

/-- Rust `str::is_char_boundary` on a UTF-8 byte list: position 0 and
the end are boundaries, and an interior position is a boundary iff the
byte there is not a continuation byte (`0x80..0xC0`). -/
def isCharBoundary (s : List Nat) (n : Nat) : Bool :=
  if n = 0 then true
  else
    match s.get? n with
    | some b => decide (b < 0x80 ∨ 0xC0 ≤ b)
    | none => decide (n = s.length)

/-- `fixed_length_string` from `src/render.rs`, on UTF-8 byte lists:
pad with spaces up to `n` when shorter, return unchanged when equal,
and byte-slice `&s[..n]` when longer — which PANICS (`none`) when `n`
is not a character boundary. -/
def fixed_length_string (s : List Nat) (n : Nat) : Option (List Nat) :=
  if s.length < n then some (s ++ List.replicate (n - s.length) 0x20)
  else if n < s.length then
    if isCharBoundary s n then some (s.take n) else none
  else some s

/-- Modelled from the spec: `Line::to_string(re, max_width)` is absent
from `src/`; per §4.4 step 4, if the glyph part alone exceeds the
width, truncate it, otherwise append the name/error part truncated to
the remaining width (the inverse-video highlighting of step 6 does not
affect any claim and is omitted; widths are counted in characters). -/
def lineToString (l : Line) (_re : String → Bool) (max_width : Nat) : String :=
  if max_width < l.first_part.length then
    (l.first_part.toList.take max_width).asString
  else
    l.first_part ++ (l.last_part.toList.take (max_width - l.first_part.length)).asString

/-- `render_tree` from `src/render.rs`: skip `scroll` lines, draw at
most `max_height` of them over blanked rows, then pad with
`(tree.len() - scroll)..max_height` blank rows — whose start PANICS
(`none`) by usize underflow when `scroll > tree.len()`. -/
def render_tree (tree : List Line) (max_width max_height scroll : Nat)
    (re : String → Bool) : Option String :=
  let blank_line := String.mk (List.replicate max_width ' ') ++ "\r"
  let body := ((tree.drop scroll).take max_height).foldl
    (fun acc line => acc ++ blank_line ++ lineToString line re max_width ++ "\r\n") ""
  if tree.length < scroll then none
  else
    some (body ++ (List.range (max_height - (tree.length - scroll))).foldl
      (fun acc _ => acc ++ blank_line ++ "\r\n") "")

/-- `render` from `src/render.rs`, restricted to its pure part: flatten
the marked tree, clamp the scroll (`if *scroll >= lines.len() { *scroll
= lines.len().saturating_sub(1) }`), and build the frame with
`render_tree` on `screen_size.1 as usize - 3` rows — a usize
subtraction that PANICS (`none`) by underflow when the terminal height
is below 3. Returns the clamped scroll and the frame. -/
def render (tree : DirectoryNode) (style : Style) (scroll : Nat)
    (max_width max_height : Nat) (re : String → Bool) : Nat × Option String :=
  let lines := flatten_tree tree "" true style
  let scroll' := if scroll ≥ lines.length then lines.length - 1 else scroll
  (scroll',
    if max_height < 3 then none
    else render_tree lines max_width (max_height - 3) scroll' re)

/-- ANSI cyan, for directories (`src/generate.rs`). -/
def CYAN : String := "\x1B[36m"

/-- ANSI magenta, for regular files (`src/generate.rs`). -/
def MAGENTA : String := "\x1B[35m"

/-- ANSI yellow, for symlinks (`src/generate.rs`). -/
def YELLOW : String := "\x1B[33m"

/-- ANSI red, for unreadable directories (`src/generate.rs`). -/
def RED : String := "\x1B[31m"

/-- `determine_color` from `src/generate.rs`, with the two filesystem
queries `path.is_symlink()` / `path.is_dir()` passed as booleans:
symlinks yellow, directories cyan, regular files magenta. -/
def determine_color (isSymlink isDir : Bool) : String :=
  if isSymlink then YELLOW
  else if isDir then CYAN
  else MAGENTA

/-- The snapshot of the filesystem that `build_directory_tree` walks.
A `dir`'s listing is the `fs::read_dir` outcome: `Except.error e` when
listing fails, otherwise the iterator's items — `none` for an item
that is itself an `Err` (skipped by `filter_map(Result::ok)`), and
`some (ftOk, pathOk, node)` for an `Ok` entry whose
`entry.file_type()` call succeeds iff `ftOk` and whose `entry.path()`
is valid UTF-8 (`to_str()` is `Some`) iff `pathOk` — the latter is
consulted only when recursing into a directory entry, the only place
the source calls `to_str()`. -/
inductive FSNode where
  | file (path : List String) (isSymlink : Bool)
  | dir (path : List String)
      (listing : Except String (List (Option (Bool × Bool × FSNode))))

/-- `'{dir}'` as displayed in the not-a-directory error message. -/
def pathDisplay (p : List String) : String :=
  String.intercalate "/" p

mutual

/-- `build_directory_tree` from `src/generate.rs`: a non-directory root
becomes a single error node; a failed `read_dir` becomes a red error
node; otherwise every iterator item is processed — and an entry whose
`file_type()` fails hits `.expect("Failed to get file type for
entry")`, a PANIC (`none` result). -/
def build_directory_tree : FSNode → Option DirectoryNode
  | FSNode.file p sym =>
    some (DirectoryNode.mk p [] false (determine_color sym false)
      (some ("Error: '" ++ pathDisplay p ++ "' is not a directory.")))
  | FSNode.dir p (Except.error e) =>
    some (DirectoryNode.mk p [] false RED (some e))
  | FSNode.dir p (Except.ok entries) =>
    match buildChildren entries with
    | some cs => some (DirectoryNode.mk p cs false (determine_color false true) none)
    | none => none

/-- The `.map(...).collect()` over the `read_dir` iterator items:
`Err` items were removed by `filter_map(Result::ok)`; an `Ok` entry
with a failing `file_type()` panics; a directory entry first converts
its path with `entry.path().to_str().expect("Failed to convert path to
string")` — a second PANIC when the name is not valid UTF-8 — and then
recurses; a non-directory entry becomes a leaf node (its path is used
as a `PathBuf`, never through `to_str()`). -/
def buildChildren : List (Option (Bool × Bool × FSNode)) → Option (List DirectoryNode)
  | [] => some []
  | none :: rest => buildChildren rest
  | some (ftOk, pathOk, FSNode.dir dp dl) :: rest =>
    if ftOk then
      if pathOk then
        match build_directory_tree (FSNode.dir dp dl), buildChildren rest with
        | some c, some cs => some (c :: cs)
        | _, _ => none
      else none
    else none
  | some (ftOk, _, FSNode.file fp sym) :: rest =>
    if ftOk then
      match buildChildren rest with
      | some cs =>
        some (DirectoryNode.mk fp [] false (determine_color sym false) none :: cs)
      | none => none
    else none

end

mutual

/-- Every entry reachable in the snapshot has a working `file_type()`,
and every reachable directory entry has a valid-UTF-8 path (listing
failures and iterator `Err` items are allowed: the walk localizes or
skips those without panicking). -/
def fsAllReadable : FSNode → Bool
  | FSNode.file _ _ => true
  | FSNode.dir _ (Except.error _) => true
  | FSNode.dir _ (Except.ok entries) => fsAllReadableList entries

/-- `fsAllReadable` over a listing: `pathOk` is required exactly for
directory entries, the only ones the source pushes through
`to_str()`. -/
def fsAllReadableList : List (Option (Bool × Bool × FSNode)) → Bool
  | [] => true
  | none :: rest => fsAllReadableList rest
  | some (ftOk, pathOk, FSNode.dir dp dl) :: rest =>
    ftOk && pathOk && fsAllReadable (FSNode.dir dp dl) && fsAllReadableList rest
  | some (ftOk, _, FSNode.file _ _) :: rest =>
    ftOk && fsAllReadableList rest

end

mutual

/-- Structural induction over `DirectoryNode`: to prove `P` everywhere
it suffices to prove it at a node given it on all children. -/
theorem DirectoryNode.ind {P : DirectoryNode → Prop}
    (h : ∀ p cs m color err, (∀ c ∈ cs, P c) → P (DirectoryNode.mk p cs m color err)) :
    ∀ t, P t
  | DirectoryNode.mk p cs m color err =>
    h p cs m color err (fun c hc => DirectoryNode.indList h cs c hc)

/-- `DirectoryNode.ind` for every member of a list of subtrees. -/
theorem DirectoryNode.indList {P : DirectoryNode → Prop}
    (h : ∀ p cs m color err, (∀ c ∈ cs, P c) → P (DirectoryNode.mk p cs m color err)) :
    ∀ (cs : List DirectoryNode), ∀ c ∈ cs, P c
  | [] => fun c hc => absurd hc (List.not_mem_nil c)
  | d :: rest => fun c hc =>
    Or.elim (List.mem_cons.mp hc)
      (fun he => he ▸ DirectoryNode.ind h d)
      (fun hr => DirectoryNode.indList h rest c hr)

end

/-- `selfNameMatches` only looks at the path. -/
theorem selfNameMatches_congr (re : String → Bool) (n n' : DirectoryNode)
    (h : n.path = n'.path) : selfNameMatches re n = selfNameMatches re n' := by
  simp [selfNameMatches, DirectoryNode.fileName, h]

/-- Marking keeps the node's path. -/
theorem mark_path (re : String → Bool) (t : DirectoryNode) :
    ((mark_matched_nodes re t).1).path = t.path := by
  cases t with
  | mk p cs m color err => simp [mark_matched_nodes, DirectoryNode.path]

/-- The flag `mark_matched_nodes` returns is the flag it stores. -/
theorem mark_snd_eq_matched (re : String → Bool) (t : DirectoryNode) :
    (mark_matched_nodes re t).2 = ((mark_matched_nodes re t).1).matched := by
  cases t with
  | mk p cs m color err => simp [mark_matched_nodes, DirectoryNode.matched]

/-- The children returned by the fold are the marked children, in
order. -/
theorem markChildren_fst (re : String → Bool) (cs : List DirectoryNode) :
    (markChildren re cs).1 = cs.map (fun c => (mark_matched_nodes re c).1) := by
  induction cs with
  | nil => simp [markChildren]
  | cons c rest ih => simp [markChildren, ih]

/-- The fold's accumulated flag is "some marked child has its flag
set". -/
theorem markChildren_snd (re : String → Bool) (cs : List DirectoryNode) :
    (markChildren re cs).2 = ((markChildren re cs).1).any DirectoryNode.matched := by
  induction cs with
  | nil => simp [markChildren]
  | cons c rest ih => simp [markChildren, ih, mark_snd_eq_matched]

/-- `allNodesList` is `List.all` of `allNodes`. -/
theorem allNodesList_eq_all (p : DirectoryNode → Bool) (cs : List DirectoryNode) :
    allNodesList p cs = cs.all (fun n => allNodes p n) := by
  induction cs with
  | nil => simp [allNodesList]
  | cons c rest ih => simp [allNodesList, ih]

/-- `anyNodeList` is `List.any` of `anyNode`. -/
theorem anyNodeList_eq_any (p : DirectoryNode → Bool) (cs : List DirectoryNode) :
    anyNodeList p cs = cs.any (fun n => anyNode p n) := by
  induction cs with
  | nil => simp [anyNodeList]
  | cons c rest ih => simp [anyNodeList, ih]

/-- A tree-wide property holds at the root. -/
theorem allNodes_root (p : DirectoryNode → Bool) (n : DirectoryNode)
    (h : allNodes p n = true) : p n = true := by
  cases n with
  | mk path cs m color err =>
    simp only [allNodes, Bool.and_eq_true] at h
    exact h.1

theorem selfNameMatches_mk (re : String → Bool) (p : List String)
    (cs : List DirectoryNode) (m : Bool) (color : String) (err : Option String) :
    selfNameMatches re (DirectoryNode.mk p cs m color err)
      = (match p.getLast? with | some f => re f | none => false) := rfl

theorem mark_local_char (re : String → Bool) (t : DirectoryNode) :
    allNodes (fun n =>
        n.matched == (selfNameMatches re n || n.children.any DirectoryNode.matched))
      ((mark_matched_nodes re t).1) = true := by
  induction t using DirectoryNode.ind with
  | h p cs m color err ih =>
    simp only [mark_matched_nodes, allNodes, Bool.and_eq_true]
    constructor
    · simp only [DirectoryNode.matched, DirectoryNode.children, selfNameMatches_mk,
        markChildren_snd, beq_self_eq_true]
    · rw [allNodesList_eq_all, markChildren_fst, List.all_map, List.all_eq_true]
      intro c hc
      exact ih c hc

theorem list_any_congr {α : Type} (p q : α → Bool) :
    ∀ l : List α, (∀ x ∈ l, p x = q x) → l.any p = l.any q
  | [], _ => rfl
  | x :: xs, h => by
    simp only [List.any_cons, h x (List.mem_cons_self x xs),
      list_any_congr p q xs (fun y hy => h y (List.mem_cons_of_mem x hy))]

theorem mark_global_char (re : String → Bool) (t : DirectoryNode) :
    allNodes (fun n => n.matched == anyNode (selfNameMatches re) n)
      ((mark_matched_nodes re t).1) = true := by
  induction t using DirectoryNode.ind with
  | h p cs m color err ih =>
    have hchild : ∀ c ∈ cs,
        ((mark_matched_nodes re c).1).matched
          = anyNode (selfNameMatches re) ((mark_matched_nodes re c).1) := by
      intro c hc
      have h2 := allNodes_root _ _ (ih c hc)
      simpa using h2
    simp only [mark_matched_nodes, allNodes, Bool.and_eq_true]
    constructor
    · simp only [DirectoryNode.matched, anyNode, selfNameMatches_mk]
      have hs : (markChildren re cs).2
          = anyNodeList (selfNameMatches re) (markChildren re cs).1 := by
        rw [markChildren_snd, anyNodeList_eq_any, markChildren_fst]
        exact list_any_congr _ _ _ (fun c hc => by
          obtain ⟨d, hd, rfl⟩ := List.mem_map.mp hc
          simp [hchild d hd])
      rw [hs, beq_self_eq_true]
    · rw [allNodesList_eq_all, markChildren_fst, List.all_map, List.all_eq_true]
      intro c hc
      exact ih c hc

/-- C1: after `mark_matched_nodes` runs, (a) the returned flag is the
flag stored at the root; (b) at EVERY node of the result, the flag is
set iff the node's own name (final path component only) matches the
pattern or some child's flag is set; (c) equivalently, at every node
the flag is set iff the node's own name or the name of some descendant
at any depth matches the pattern. -/
theorem mark_matched_nodes_correct (re : String → Bool) (t : DirectoryNode) :
    (mark_matched_nodes re t).2 = ((mark_matched_nodes re t).1).matched
    ∧ allNodes (fun n =>
        n.matched == (selfNameMatches re n || n.children.any DirectoryNode.matched))
      ((mark_matched_nodes re t).1) = true
    ∧ allNodes (fun n => n.matched == anyNode (selfNameMatches re) n)
      ((mark_matched_nodes re t).1) = true :=
  ⟨mark_snd_eq_matched re t, mark_local_char re t, mark_global_char re t⟩

/-- C2: `flatten_tree` emits zero lines for a subtree whose root is not
visible — the pruned node and all its descendants, whatever their own
flags, produce no line. -/
theorem flatten_tree_prunes_invisible_subtree (n : DirectoryNode) (pre : String)
    (is_last : Bool) (style : Style) (h : n.matched = false) :
    flatten_tree n pre is_last style = [] := by
  cases n with
  | mk p cs m color err =>
    simp only [DirectoryNode.matched] at h
    simp [flatten_tree, h]

/-- C2 witness: a concrete invisible node whose child has its own flag
set still flattens to zero lines. -/
theorem flatten_tree_prunes_invisible_subtree_witness :
    (DirectoryNode.mk ["a"] [DirectoryNode.mk ["a", "b"] [] true "" none]
        false "" none).matched = false
    ∧ flatten_tree
        (DirectoryNode.mk ["a"] [DirectoryNode.mk ["a", "b"] [] true "" none]
          false "" none) "" true Style.full = [] :=
  ⟨rfl, flatten_tree_prunes_invisible_subtree _ "" true Style.full rfl⟩

/-- C6 counterexample: on the two-byte UTF-8 string `"é"` with width 1,
the slice `&s[..1]` falls inside the character and PANICS, refuting
"width-clipping never errors or panics ... including multi-byte
characters". -/
theorem fixed_length_string_panics_on_multibyte :
    fixed_length_string [0xC3, 0xA9] 1 = none := by decide

/-- C6 (amended): on strings of single-byte (ASCII) characters,
width-clipping never panics and returns exactly the requested width,
padding with spaces or dropping trailing bytes; a multi-byte character
can make the slice index fall off a character boundary and panic. -/
theorem fixed_length_string_ascii_total (s : List Nat) (n : Nat)
    (h : ∀ b ∈ s, b < 0x80) :
    fixed_length_string s n
      = some (if s.length < n then s ++ List.replicate (n - s.length) 0x20
              else s.take n)
    ∧ ∃ r, fixed_length_string s n = some r ∧ r.length = n := by
  have hb : n < s.length → isCharBoundary s n = true := by
    intro hn
    unfold isCharBoundary
    by_cases h0 : n = 0
    · simp [h0]
    · cases hg : s.get? n with
      | none =>
        exact absurd (List.get?_eq_none.mp hg) (by omega)
      | some b =>
        have hmem : b ∈ s := List.get?_mem hg
        have := h b hmem
        simp [h0, hg]
        omega
  rcases Nat.lt_trichotomy s.length n with hlt | heq | hgt
  · have h1 : fixed_length_string s n = some (s ++ List.replicate (n - s.length) 0x20) := by
      unfold fixed_length_string
      rw [if_pos hlt]
    refine ⟨by rw [h1, if_pos hlt], _, h1, ?_⟩
    simp only [List.length_append, List.length_replicate]
    omega
  · have h1 : fixed_length_string s n = some s := by
      unfold fixed_length_string
      rw [if_neg (by omega), if_neg (by omega)]
    refine ⟨?_, s, h1, heq⟩
    rw [h1, if_neg (by omega), List.take_of_length_le (by omega)]
  · have hbd := hb hgt
    have h1 : fixed_length_string s n = some (s.take n) := by
      unfold fixed_length_string
      rw [if_neg (by omega), if_pos hgt, if_pos hbd]
    refine ⟨by rw [h1, if_neg (by omega)], _, h1, ?_⟩
    rw [List.length_take]
    omega

/-- C6 witness for the amended theorem: the ASCII bytes of `"abc"`
clipped to width 5 succeed with a width-5 result. -/
theorem fixed_length_string_ascii_total_witness :
    ∃ r, fixed_length_string [0x61, 0x62, 0x63] 5 = some r ∧ r.length = 5 :=
  (fixed_length_string_ascii_total [0x61, 0x62, 0x63] 5 (by decide)).2

/-- C9: for EVERY requested scroll value — any value at or beyond the
visible line count, and the zero-visible-lines case included — on any
terminal of height at least 3 (below that, `screen_size.1 as usize - 3`
underflows regardless of the scroll value), the scroll actually used by
`render` is clamped into `[0, max(0, visible_line_count - 1)]`, and the
frame computation — whose blank-row padding subtracts the scroll from
the line count — never panics (`isSome`). -/
theorem render_clamps_scroll_and_never_panics (tree : DirectoryNode)
    (style : Style) (scroll max_width max_height : Nat) (re : String → Bool)
    (hh : 3 ≤ max_height) :
    (render tree style scroll max_width max_height re).1
      ≤ max 0 ((flatten_tree tree "" true style).length - 1)
    ∧ ((render tree style scroll max_width max_height re).2).isSome = true := by
  constructor
  · simp only [render]
    split <;> omega
  · simp only [render, render_tree, Option.isSome_some, Option.isSome_none]
    rw [if_neg (by omega)]
    split
    · split <;> [omega; simp]
    · split <;> [omega; simp]

/-- C9 witness: on a 80×24 terminal, a one-line tree with the absurd
requested scroll 99 is clamped to 0 and the frame is built without
panic. -/
theorem render_clamps_scroll_and_never_panics_witness :
    (render (DirectoryNode.mk ["a"] [] true MAGENTA none) Style.full
        99 80 24 (fun _ => true)).1
      ≤ max 0 ((flatten_tree (DirectoryNode.mk ["a"] [] true MAGENTA none)
          "" true Style.full).length - 1)
    ∧ ((render (DirectoryNode.mk ["a"] [] true MAGENTA none) Style.full
        99 80 24 (fun _ => true)).2).isSome = true :=
  render_clamps_scroll_and_never_panics
    (DirectoryNode.mk ["a"] [] true MAGENTA none) Style.full
    99 80 24 (fun _ => true) (by omega)

/-- C7 counterexample: a directory with a single entry whose
`file_type()` call fails makes `build_directory_tree` hit
`.expect("Failed to get file type for entry")` and PANIC, refuting
"never aborts or panics; unreadable children are skipped or localized".
-/
theorem build_panics_on_unreadable_file_type :
    build_directory_tree
      (FSNode.dir ["r"]
        (Except.ok [some (false, true, FSNode.file ["r", "a"] false)]))
      = none := rfl

mutual

/-- If every reachable entry has a working `file_type()` and every
reachable directory entry a valid-UTF-8 path, the build succeeds (no
panic). -/
theorem build_total : ∀ fs : FSNode,
    fsAllReadable fs = true → (build_directory_tree fs).isSome = true
  | FSNode.file p sym => fun _ => by simp [build_directory_tree]
  | FSNode.dir p (Except.error e) => fun _ => by simp [build_directory_tree]
  | FSNode.dir p (Except.ok entries) => fun h => by
    have h2 := buildChildren_total entries (by
      simpa [fsAllReadable] using h)
    obtain ⟨cs, hcs⟩ := Option.isSome_iff_exists.mp h2
    simp [build_directory_tree, hcs]

/-- `build_total` over a listing. -/
theorem buildChildren_total : ∀ entries : List (Option (Bool × Bool × FSNode)),
    fsAllReadableList entries = true → (buildChildren entries).isSome = true
  | [] => fun _ => by simp [buildChildren]
  | none :: rest => fun h => by
    have h2 := buildChildren_total rest (by simpa [fsAllReadableList] using h)
    simpa [buildChildren] using h2
  | some (ftOk, pathOk, FSNode.dir dp dl) :: rest => fun h => by
    simp only [fsAllReadableList, Bool.and_eq_true] at h
    obtain ⟨⟨⟨hft, hpath⟩, hfs⟩, hrest⟩ := h
    have h2 := build_total (FSNode.dir dp dl) hfs
    have h3 := buildChildren_total rest hrest
    obtain ⟨c, hc⟩ := Option.isSome_iff_exists.mp h2
    obtain ⟨cs, hcs⟩ := Option.isSome_iff_exists.mp h3
    simp [buildChildren, hft, hpath, hc, hcs]
  | some (ftOk, _, FSNode.file fp sym) :: rest => fun h => by
    simp only [fsAllReadableList, Bool.and_eq_true] at h
    obtain ⟨hft, hrest⟩ := h
    have h3 := buildChildren_total rest hrest
    obtain ⟨cs, hcs⟩ := Option.isSome_iff_exists.mp h3
    simp [buildChildren, hft, hcs]

end

/-- C7 (amended): the walk is best-effort with respect to entries the
`read_dir` iterator yields as `Err` (silently skipped) and with respect
to the root — a non-directory root and a root whose listing fails are
each localized to a single error-placeholder node; when every reachable
entry's `file_type()` works and every reachable directory entry's path
is valid UTF-8, the whole build succeeds; but an entry whose
`file_type()` fails, or a directory entry whose path is not valid
UTF-8 (`to_str()` is `None`), panics (aborts) via `expect`. -/
theorem build_best_effort_amended :
    (∀ p e, build_directory_tree (FSNode.dir p (Except.error e))
      = some (DirectoryNode.mk p [] false RED (some e)))
    ∧ (∀ p sym, build_directory_tree (FSNode.file p sym)
      = some (DirectoryNode.mk p [] false (determine_color sym false)
          (some ("Error: '" ++ pathDisplay p ++ "' is not a directory."))))
    ∧ (∀ rest, buildChildren (none :: rest) = buildChildren rest)
    ∧ (∀ dp dl rest,
        buildChildren (some (true, false, FSNode.dir dp dl) :: rest) = none)
    ∧ (∀ fs, fsAllReadable fs = true → (build_directory_tree fs).isSome = true) := by
  refine ⟨fun p e => rfl, fun p sym => rfl, fun rest => rfl,
    fun dp dl rest => rfl, build_total⟩

/-- C7 witness for the amended theorem: a directory whose listing
contains a skipped `Err` item, a readable file and a readable UTF-8
subdirectory builds successfully. -/
theorem build_best_effort_amended_witness :
    (build_directory_tree
      (FSNode.dir ["r"]
        (Except.ok [none, some (true, true, FSNode.file ["r", "a"] false),
          some (true, true, FSNode.dir ["r", "d"] (Except.ok []))]))).isSome
      = true :=
  build_best_effort_amended.2.2.2.2
    (FSNode.dir ["r"]
      (Except.ok [none, some (true, true, FSNode.file ["r", "a"] false),
        some (true, true, FSNode.dir ["r", "d"] (Except.ok []))]))
    (by decide)

/-- If no element of `cs` is matched, the enumerate-filter of
`index_of_last_match` is empty, whatever the start index. -/
theorem filterMatched_eq_nil (cs : List DirectoryNode)
    (h : ∀ d ∈ cs, d.matched = false) (k : Nat) :
    ((List.enumFrom k cs).filterMap
      fun p => if p.2.matched then some p.1 else none) = [] := by
  induction cs generalizing k with
  | nil => rfl
  | cons c0 rest ih =>
    have h0 := h c0 (List.mem_cons_self c0 rest)
    simp only [List.enumFrom, List.filterMap_cons, h0, if_neg Bool.false_ne_true]
    exact ih (fun d hd => h d (List.mem_cons_of_mem c0 hd)) (k + 1)

/-- Helper: prepending keeps a known last element. -/
theorem getLast?_cons_of_some {α : Type} (a x : α) (l : List α)
    (h : l.getLast? = some x) : (a :: l).getLast? = some x := by
  cases l with
  | nil => simp at h
  | cons b t => rw [List.getLast?_cons_cons]; exact h

/-- The enumerate-filter of `index_of_last_match` ends exactly at the
last matched index: if `cs.get? i` is matched and everything after `i`
is unmatched, the filtered index list ends at `k + i`. -/
theorem filterMatched_getLast (cs : List DirectoryNode) :
    ∀ (k i : Nat) (c : DirectoryNode), cs.get? i = some c → c.matched = true →
    (∀ j d, cs.get? j = some d → i < j → d.matched = false) →
    ((List.enumFrom k cs).filterMap
      fun p => if p.2.matched then some p.1 else none).getLast? = some (k + i) := by
  induction cs with
  | nil => intro k i c hget; simp at hget
  | cons c0 rest ih =>
    intro k i c hget hc hafter
    cases i with
    | zero =>
      have hc0 : c0 = c := by simpa using hget
      subst hc0
      have hrest : ∀ d ∈ rest, d.matched = false := by
        intro d hd
        obtain ⟨j', hj'⟩ := List.get?_of_mem hd
        exact hafter (j' + 1) d (by simpa using hj') (Nat.succ_pos j')
      simp only [List.enumFrom, List.filterMap_cons, hc, if_pos rfl]
      rw [filterMatched_eq_nil rest hrest (k + 1)]
      simp
    | succ i' =>
      have hget' : rest.get? i' = some c := by simpa using hget
      have hafter' : ∀ j d, rest.get? j = some d → i' < j → d.matched = false := by
        intro j d hj hij
        exact hafter (j + 1) d (by simpa using hj) (by omega)
      have hL := ih (k + 1) i' c hget' hc hafter'
      have heq : k + 1 + i' = k + (i' + 1) := by omega
      rw [heq] at hL
      simp only [List.enumFrom, List.filterMap_cons]
      cases hm : c0.matched with
      | false => simpa [hm] using hL
      | true =>
        simp only [hm, if_pos rfl]
        exact getLast?_cons_of_some _ _ _ hL

/-- Under the same hypotheses, `index_of_last_match` is exactly the
index of the last visible sibling. -/
theorem indexOfLastMatch_eq (cs : List DirectoryNode) (i : Nat) (c : DirectoryNode)
    (hget : cs.get? i = some c) (hc : c.matched = true)
    (hafter : ∀ j d, cs.get? j = some d → i < j → d.matched = false) :
    indexOfLastMatch cs = i := by
  unfold indexOfLastMatch
  have h := filterMatched_getLast cs 0 i c hget hc hafter
  rw [show cs.enum = List.enumFrom 0 cs from rfl, h]
  simp

/-- A visible node's flattening starts with its own line, whose glyph
part is the accumulated ancestors' trail followed by the
`(style, is_last)` connector. -/
theorem flatten_tree_head_of_matched (n : DirectoryNode) (pre : String)
    (is_last : Bool) (style : Style) (h : n.matched = true) :
    (flatten_tree n pre is_last style).head?
      = some { first_part := pre ++ connector style is_last
               last_part := ((n.path.getLast?).getD "."
                 ++ (match n.error with | some e => " " ++ e | none => ""))
               color := n.color } := by
  cases n with
  | mk p cs m color err =>
    simp only [DirectoryNode.matched] at h
    simp [flatten_tree, h, DirectoryNode.path, DirectoryNode.error, DirectoryNode.color]

/-- The child loop of `flatten_tree` splits around any child: the
child at list position `i` contributes exactly its own flattening,
called with `is_last = (counter + i == index_of_last_match)`. -/
theorem flattenChildren_split (cs : List DirectoryNode) :
    ∀ (i : Nat) (c : DirectoryNode) (k idx : Nat) (cp : String) (style : Style),
    cs.get? i = some c →
    flattenChildren cs k idx cp style
      = flattenChildren (cs.take i) k idx cp style
        ++ flatten_tree c cp (decide (k + i = idx)) style
        ++ flattenChildren (cs.drop (i + 1)) (k + i + 1) idx cp style := by
  induction cs with
  | nil => intro i c k idx cp style hget; simp at hget
  | cons c0 rest ih =>
    intro i c k idx cp style hget
    cases i with
    | zero =>
      have hc0 : c0 = c := by simpa using hget
      subst hc0
      simp [flattenChildren]
    | succ i' =>
      have hget' : rest.get? i' = some c := by simpa using hget
      have hrec := ih i' c (k + 1) idx cp style hget'
      simp only [List.take_succ_cons, List.drop_succ_cons, flattenChildren, hrec]
      have h1 : k + 1 + i' = k + (i' + 1) := by omega
      rw [h1]
      simp [List.append_assoc]

/-- C8: for both styles, the last visible sibling draws the "last"
connector glyph, and the choice is relative to visible siblings only:
if the child at position `i` is visible and every later raw sibling is
invisible, then (a) `index_of_last_match` is exactly `i`; (b) the child
loop hands that child — and only by its position among VISIBLE
siblings — `is_last = true`, contributing its flattening between those
of the earlier and later siblings; (c) that child's first rendered line
carries the `(style, is_last = true)` connector, which is `└` in
compact style and `└─` in full style. -/
theorem last_visible_sibling_renders_last_glyph
    (cs : List DirectoryNode) (i : Nat) (c : DirectoryNode) (style : Style)
    (hget : cs.get? i = some c) (hc : c.matched = true)
    (hafter : ∀ j d, cs.get? j = some d → i < j → d.matched = false) :
    indexOfLastMatch cs = i
    ∧ (∀ cp, flattenChildren cs 0 (indexOfLastMatch cs) cp style
        = flattenChildren (cs.take i) 0 i cp style
          ++ flatten_tree c cp true style
          ++ flattenChildren (cs.drop (i + 1)) (i + 1) i cp style)
    ∧ (∀ cp, ((flatten_tree c cp true style).head?).map Line.first_part
        = some (cp ++ connector style true))
    ∧ connector Style.compact true = "└" ∧ connector Style.full true = "└─" := by
  have hidx := indexOfLastMatch_eq cs i c hget hc hafter
  refine ⟨hidx, ?_, ?_, rfl, rfl⟩
  · intro cp
    have hsplit := flattenChildren_split cs i c 0 (indexOfLastMatch cs) cp style hget
    rw [hidx] at hsplit ⊢
    simpa using hsplit
  · intro cp
    rw [flatten_tree_head_of_matched c cp true style hc]
    rfl

/-- A visible leaf for the C8 witness. -/
def wVisible : DirectoryNode := DirectoryNode.mk ["r", "v"] [] true MAGENTA none

/-- An invisible trailing sibling for the C8 witness. -/
def wInvisible : DirectoryNode := DirectoryNode.mk ["r", "w"] [] false MAGENTA none

/-- C8 witness: with a visible first child followed only by an
invisible sibling, `index_of_last_match` is 0 and the visible child's
line draws the full-style "last" glyph. -/
theorem last_visible_sibling_renders_last_glyph_witness :
    indexOfLastMatch [wVisible, wInvisible] = 0
    ∧ ((flatten_tree wVisible "│ " true Style.full).head?).map Line.first_part
        = some ("│ " ++ connector Style.full true) := by
  have h := last_visible_sibling_renders_last_glyph [wVisible, wInvisible] 0 wVisible
    Style.full rfl rfl
    (fun j d hj h0 => by
      match j, hj with
      | 1, hj =>
        have hd : d = wInvisible := by simpa using hj.symm
        subst hd
        rfl
      | n + 2, hj => simp at hj)
  exact ⟨h.1, h.2.2.1 "│ "⟩
